import Mathlib

/-!
Formal model of the position-tracking and valuation engine of the stockdata
repository: the as-of price/forex resolver, the crypto position tracker
(src/historical_transactions/crypto_snapshots.py) and the equity portfolio
tracker (src/historical_transactions/portfolio_snapshots.py).

Modelling conventions:
- Dates are natural numbers (days since the 2000-01-01 epoch used by the
  synthetic stablecoin series); price files are association lists of
  (date, price) pairs.
- Python floats and Decimals are both modelled as exact rationals; the only
  rounding the source performs explicitly, round(x, n) inside to_snapshot,
  is modelled by pyRound (round-half-even on the decimally scaled value).
- Python exceptions (FileNotFoundError, IndexError, ZeroDivisionError,
  decimal parse errors, list-index errors) are modelled with Except/Option;
  a none / .error result is a crash of the batch run.
- The process-wide caches (lru_cache on get_price_history, module-level
  TOKEN_METADATA / CURRENCY_METADATA / STOCK_METADATA) are modelled as
  explicit read-only environments passed to every function.
- TOKEN_METADATA is keyed by address and searched by symbol in fetch_asset;
  since a symbol identifies at most one metadata record in that search, the
  lookup is modelled as a function from symbol to optional metadata.
- CryptoPosition.family_proxy is an object reference resolved once from the
  metadata at creation time; it is modelled as the coin name computed by
  familyProxyOf, and the recursive adjust_principal chain by settle with an
  explicit fuel bound (the Python recursion terminates only on acyclic
  metadata; theorems carry the corresponding hypotheses).
- Console warnings/log prints are I/O and not modelled; only the values the
  resolver and trackers produce are.
- Snapshot emission of the crypto tracker (_update_snapshots) iterates a
  Python set whose order is unspecified and only reads position state; it is
  outside every property below, so the crypto tracker state is the position
  map alone.
-/

namespace Stockdata

/-! ### Structural models of the Python string methods the engine uses -/

/-- Whitespace test of Python str.strip (the whitespace occurring in the
CSV cells at hand). -/
def isSpaceChar (c : Char) : Bool :=
  c = ' ' || c = '\t' || c = '\n' || c = '\r'

/-- Python str.split(sep) on a single-character separator, over the
character list ("".split(sep) is [""]). -/
def splitOnChar (sep : Char) : List Char → List (List Char)
  | [] => [[]]
  | c :: rest =>
    if c = sep then [] :: splitOnChar sep rest
    else
      match splitOnChar sep rest with
      | [] => [[c]]
      | g :: gs => (c :: g) :: gs

/-- Python str.split(sep) producing strings. -/
def pySplit (sep : Char) (s : String) : List String :=
  (splitOnChar sep s.toList).map String.mk

/-- Python str.strip(): drop leading and trailing whitespace. -/
def pyStrip (s : String) : String :=
  String.mk (((s.toList.dropWhile isSpaceChar).reverse.dropWhile
    isSpaceChar).reverse)

/-- Python str.lower() on the ASCII content at hand. -/
def pyLower (s : String) : String := String.mk (s.toList.map Char.toLower)

/-- Python str.upper() on the ASCII content at hand. -/
def pyUpper (s : String) : String := String.mk (s.toList.map Char.toUpper)

/-- Character-list core of str.startswith. -/
def startsWithList : List Char → List Char → Bool
  | [], _ => true
  | _ :: _, [] => false
  | p :: ps, c :: cs => p == c && startsWithList ps cs

/-- Python s.startswith(p). -/
def pyStartsWith (s p : String) : Bool := startsWithList p.toList s.toList

/-! ### As-of price and forex resolver -/

inductive ForexError where
  | fileNotFound
  | indexError
deriving DecidableEq

/-- One per-asset price series: (date, price) rows of a CSV file. -/
abbrev Series := List (ℕ × ℚ)

/-- The price folder: which series file exists for a given name. -/
abbrev FileMap := String → Option Series

/-- Rows of the series with date at or before the target date
(df[df["Date"] <= target_date], order preserving). -/
def asofMatches (series : Series) (date : ℕ) : Series :=
  series.filter (fun e => e.1 ≤ date)

/-- Model of sort_values("Date", ascending=False) followed by iloc[0]:
the entry carrying the maximal date (first such entry on ties). -/
def maxDateEntry : Series → Option (ℕ × ℚ)
  | [] => none
  | e :: rest =>
    match maxDateEntry rest with
    | none => some e
    | some m => if m.1 > e.1 then some m else some e

/-- The as-of lookup inside get_forex_rate: filter to dates at or before the
target and take the price of the latest such row; none models the IndexError
raised by iloc[0] on an empty frame. -/
def forexLookup (series : Series) (date : ℕ) : Option ℚ :=
  (maxDateEntry (asofMatches series date)).map Prod.snd

/-- get_forex_rate of portfolio_snapshots.py: EUR short-circuits to 1.0, a
missing CSV raises FileNotFoundError, otherwise the as-of lookup runs (and
raises IndexError when the target date precedes every row). -/
def getForexRate (files : FileMap) (currency : String) (date : ℕ) :
    Except ForexError ℚ :=
  if currency = "EUR" then Except.ok 1
  else
    match files currency with
    | none => Except.error ForexError.fileNotFound
    | some series =>
      match forexLookup series date with
      | none => Except.error ForexError.indexError
      | some p => Except.ok p

/-- Stable insertion of an entry into a date-ascending series. -/
def insertByDate (e : ℕ × ℚ) : Series → Series
  | [] => [e]
  | x :: xs => if e.1 < x.1 then e :: x :: xs else x :: insertByDate e xs

/-- Model of df.sort_values("Date", ascending=True): stable sort by date. -/
def sortByDate (l : Series) : Series := l.foldr insertByDate []

/-- Environment of get_price_history / get_crypto_price: STABLE_LIST, the
crypto price folder, CURRENCY_METADATA (coin to currency) and the forex
price folder consulted by get_forex_rate. -/
structure PriceEnv where
  stable : List String
  priceFiles : FileMap
  currencyMeta : String → Option String
  forexFiles : FileMap

/-- get_price_history: stablecoins get a synthetic constant series from the
epoch, a missing file degrades to a price of 0.0 from the epoch, otherwise
the file is loaded and sorted ascending by date. -/
def getPriceHistory (env : PriceEnv) (coin : String) : Series :=
  if coin ∈ env.stable then [(0, 1)]
  else
    match env.priceFiles coin with
    | none => [(0, 0)]
    | some df => sortByDate df

/-- The raw as-of part of get_crypto_price: latest row at or before the
target date, falling back to the oldest row (iloc[0]) when none matches;
none models the IndexError on an empty series. -/
def cryptoAsOfRaw (hist : Series) (date : ℕ) : Option ℚ :=
  match asofMatches hist date with
  | [] => hist.head?.map Prod.snd
  | ms => ms.getLast?.map Prod.snd

/-- get_crypto_price: raw as-of price of the coin times the forex conversion
of the coin's metadata currency (default "USD") on the same date. -/
def getCryptoPrice (env : PriceEnv) (coin : String) (date : ℕ) :
    Except ForexError ℚ :=
  match cryptoAsOfRaw (getPriceHistory env coin) date with
  | none => Except.error ForexError.indexError
  | some p =>
    (getForexRate env.forexFiles ((env.currencyMeta coin).getD "USD") date).map
      (fun conv => p * conv)

/-! ### Crypto position tracker -/

/-- One TOKEN_METADATA record, keyed by coin symbol. -/
structure TokenMeta where
  priceSource : Option String
  family : Option String

/-- Running state of one CryptoPosition: quantity and principal. The coin
name is the key of the position map; price_source and family_proxy are
resolved from the metadata at creation and never change, so they are
recomputed from the environment (psOf / familyProxyOf) instead of stored. -/
structure CryptoPos where
  quantity : ℚ
  principal : ℚ
deriving DecidableEq

/-- The tracker's position map. Lazy creation in fetch_asset always installs
the same initial position (0, 0), so a total map defaulting to it is
observationally identical to the Python dict. -/
abbrev Assets := String → CryptoPos

/-- One parsed (token, quantity) leg of a transaction row. The val field the
Python code caches on the entry is recomputed where needed. -/
structure TxEntry where
  token : String
  quantity : ℚ
deriving DecidableEq

/-- Evaluation context of one crypto transaction row: price is
get_crypto_price partially applied at the row's date, forex is
get_forex_rate at the row's date (both assumed to succeed; a raise aborts
the batch), meta is TOKEN_METADATA by symbol, fuel bounds the family-proxy
recursion of adjust_principal. -/
structure CryptoCtx where
  price : String → ℚ
  forex : String → ℚ
  meta : String → Option TokenMeta
  fuel : ℕ

/-- price_source resolution of fetch_asset: meta.get("price_source", coin)
if metadata exists, else the coin itself. -/
def psOf (meta : String → Option TokenMeta) (c : String) : String :=
  match meta c with
  | some m => m.priceSource.getD c
  | none => c

/-- family resolution of fetch_asset: meta.get("family", coin) if metadata
exists, else the coin itself. -/
def famOf (meta : String → Option TokenMeta) (c : String) : String :=
  match meta c with
  | some m => m.family.getD c
  | none => c

/-- fetch_asset sets a family proxy exactly when the resolved family names a
different coin. -/
def familyProxyOf (meta : String → Option TokenMeta) (c : String) :
    Option String :=
  if famOf meta c = c then none else some (famOf meta c)

/-- Terminal coin of the family-proxy chain followed by adjust_principal,
with explicit fuel (the Python recursion assumes the chain is acyclic). -/
def settle (proxyOf : String → Option String) : ℕ → String → String
  | 0, c => c
  | n + 1, c =>
    match proxyOf c with
    | none => c
    | some p => settle proxyOf n p

/-- Direct quantity change of a coin's own position. -/
def updQty (s : Assets) (c : String) (dq : ℚ) : Assets :=
  Function.update s c { s c with quantity := (s c).quantity + dq }

/-- CryptoPosition.adjust_principal: the amount lands on the principal of
the terminal position of the family-proxy chain. -/
def adjP (ctx : CryptoCtx) (s : Assets) (c : String) (amount : ℚ) : Assets :=
  let t := settle (familyProxyOf ctx.meta) ctx.fuel c
  Function.update s t { s t with principal := (s t).principal + amount }

/-- CryptoPosition.buy: quantity up, principal up by fiat spent times the
forex rate of the counter currency. -/
def buyOp (ctx : CryptoCtx) (s : Assets) (c : String)
    (amountBought fiatSpent : ℚ) (currency : String) : Assets :=
  adjP ctx (updQty s c amountBought) c (fiatSpent * ctx.forex currency)

/-- CryptoPosition.sell: mirror of buy. -/
def sellOp (ctx : CryptoCtx) (s : Assets) (c : String)
    (amountSold fiatReceived : ℚ) (currency : String) : Assets :=
  adjP ctx (updQty s c (-amountSold)) c (-(fiatReceived * ctx.forex currency))

/-- CryptoPosition.receive: self-priced transfer in. -/
def receiveOp (ctx : CryptoCtx) (s : Assets) (c : String)
    (amountReceived : ℚ) : Assets :=
  adjP ctx (updQty s c amountReceived) c
    (amountReceived * ctx.price (psOf ctx.meta c))

/-- CryptoPosition.send: self-priced transfer out. -/
def sendOp (ctx : CryptoCtx) (s : Assets) (c : String) (amountSent : ℚ) :
    Assets :=
  adjP ctx (updQty s c (-amountSent)) c
    (-(amountSent * ctx.price (psOf ctx.meta c)))

/-- EUR value of one swap leg: as-of price of the token's price source times
its quantity. -/
def entryVal (ctx : CryptoCtx) (e : TxEntry) : ℚ :=
  ctx.price (psOf ctx.meta e.token) * e.quantity

/-- In-leg processing of _process_swap: quantity up, principal up by the
leg's own priced value. -/
def swapInStep (ctx : CryptoCtx) (st : Assets) (e : TxEntry) : Assets :=
  adjP ctx (updQty st e.token e.quantity) e.token (entryVal ctx e)

/-- Out-leg processing of _process_swap: quantity down, principal down by
total-in-value weighted by the leg's share (val / totalOut) of the
out-value. -/
def swapOutStep (ctx : CryptoCtx) (totalIn totalOut val : ℚ) (st : Assets)
    (e : TxEntry) : Assets :=
  adjP ctx (updQty st e.token (-e.quantity)) e.token
    (-(totalIn * (val / totalOut)))

/-- CryptoTracker._process_swap. When the summed out-value is exactly zero
the denominator becomes 1 and every out leg gets the equal share
1/len(outs); with no out legs at all that computation raises
ZeroDivisionError, modelled as none. -/
def processSwap (ctx : CryptoCtx) (ins outs : List TxEntry) (s : Assets) :
    Option Assets :=
  let totalIn := (ins.map (entryVal ctx)).sum
  let totalOut := (outs.map (entryVal ctx)).sum
  let s1 := ins.foldl (swapInStep ctx) s
  if totalOut = 0 then
    if outs.isEmpty then none
    else
      some (outs.foldl
        (fun st e => swapOutStep ctx totalIn 1 (1 / (outs.length : ℚ)) st e) s1)
  else
    some (outs.foldl
      (fun st e => swapOutStep ctx totalIn totalOut (entryVal ctx e) st e) s1)

/-- CryptoTracker._process_reward: each reward leg gains quantity and priced
principal; a non-empty allocation list has the cost deducted in equal shares
from each named (upper-cased) source coin, an empty one deducts it from the
receiving coin itself. -/
def processReward (ctx : CryptoCtx) (rewards : List TxEntry)
    (alloc : List String) (s : Assets) : Assets :=
  rewards.foldl
    (fun st e =>
      let invested := e.quantity * ctx.price (psOf ctx.meta e.token)
      let st1 := adjP ctx (updQty st e.token e.quantity) e.token invested
      if alloc.isEmpty then adjP ctx st1 e.token (-invested)
      else
        alloc.foldl
          (fun st2 src =>
            adjP ctx st2 (pyUpper src) (-(invested / (alloc.length : ℚ)))) st1)
    s

/-- Target legs of gas-fee redistribution in handle_fees: ins for
swap/buy/receive, outs for sell/send, when non-empty; otherwise none. -/
def targetEntries (txType : String) (ins outs : List TxEntry) :
    List TxEntry :=
  if (txType = "swap" ∨ txType = "buy" ∨ txType = "receive") ∧ ins ≠ [] then
    ins
  else if (txType = "sell" ∨ txType = "send") ∧ outs ≠ [] then outs
  else []

/-- Decimal digit string to natural number value. -/
def digitsVal (cs : List Char) : ℕ :=
  cs.foldl (fun a c => 10 * a + (c.toNat - 48)) 0

/-- Model of Python Decimal(s) on plain decimal literals: optional sign,
integer part, optional fractional part; anything else raises, modelled as
none. -/
def parseDecimal (s : String) : Option ℚ :=
  let cs := s.toList
  let signed : ℚ × List Char :=
    match cs with
    | '-' :: rest => (-1, rest)
    | '+' :: rest => (1, rest)
    | _ => (1, cs)
  match splitOnChar '.' signed.2 with
  | [ip] =>
    if ip ≠ [] ∧ ip.all Char.isDigit then some (signed.1 * digitsVal ip)
    else none
  | [ip, fp] =>
    if (ip ≠ [] ∨ fp ≠ []) ∧ ip.all Char.isDigit ∧ fp.all Char.isDigit then
      some (signed.1 * ((digitsVal ip : ℚ) + (digitsVal fp : ℚ) / 10 ^ fp.length))
    else none
  | _ => none

/-- Comma split with per-item strip, dropping falsy (empty) items, as in
_parse_entries. -/
def splitTrim (s : String) : List String :=
  ((pySplit ',' s).map pyStrip).filter (fun x => x ≠ "")

/-- Decimal-parse every item, failing (raising) on the first bad one. -/
def mapDec : List String → Option (List ℚ)
  | [] => some []
  | x :: xs => do
    let q ← parseDecimal x
    let qs ← mapDec xs
    pure (q :: qs)

/-- _parse_entries of process_transaction: a missing or blank quantity cell
gives no entries; otherwise both cells are comma-split and zipped, the zip
silently truncating to the shorter list. -/
def parseEntries (qtyVal tokenVal : Option String) :
    Option (List TxEntry) :=
  match qtyVal with
  | none => some []
  | some qs =>
    if pyStrip qs = "" then some []
    else
      (mapDec (splitTrim qs)).map
        (fun quantities =>
          ((splitTrim (tokenVal.getD "")).zip quantities).map
            (fun tq => ⟨tq.1, tq.2⟩))

/-- CryptoTracker.handle_fees: with a present, positive fee the fee token's
quantity drops; if target legs exist the fee's EUR value moves from the fee
asset's principal to the targets' principals in equal shares. -/
def handleFees (ctx : CryptoCtx) (feeStr feeTok : Option String)
    (txType : String) (ins outs : List TxEntry) (s : Assets) :
    Option Assets :=
  match feeStr, feeTok with
  | some fs, some ft =>
    match parseDecimal fs with
    | none => none
    | some feeQty =>
      if 0 < feeQty then
        let feeVal := feeQty * ctx.price (psOf ctx.meta ft)
        let s1 := updQty s ft (-feeQty)
        let targets := targetEntries txType ins outs
        if targets.isEmpty then some s1
        else
          let s2 := adjP ctx s1 ft (-feeVal)
          some (targets.foldl
            (fun st e =>
              adjP ctx st e.token (feeVal / (targets.length : ℚ))) s2)
      else some s
  | _, _ => some s

/-- The allocation list parsed from a reward type string:
tx_type_lower.split("|")[-1].split(","). -/
def rewardAlloc (t : String) : List String :=
  pySplit ',' ((pySplit '|' t).getLastD "")

/-- One row of the crypto transaction table (free-text cells as read from
the CSV; absent cells are none). -/
structure CryptoRow where
  type : String
  qtyIn : Option String
  tokenIn : Option String
  qtyOut : Option String
  tokenOut : Option String
  fee : Option String
  feeToken : Option String

/-- Outcome of the primary type dispatch: skipped rows (approve*, unknown
types) return early without fee handling; all others proceed to it. -/
inductive TxStep where
  | skipped
  | proceed (s : Assets)

/-- CryptoTracker.process_transaction: parse both leg lists, dispatch on the
lower-cased type, then run gas-fee settlement unless the row was skipped.
none models an uncaught exception (bad decimal, missing leg on buy/sell,
empty-outs swap with zero out-value). -/
def processTransaction (ctx : CryptoCtx) (row : CryptoRow) (s : Assets) :
    Option Assets := do
  let t := pyLower row.type
  let ins ← parseEntries row.qtyIn row.tokenIn
  let outs ← parseEntries row.qtyOut row.tokenOut
  let step ←
    if t = "buy" then do
      let ei ← ins.head?
      let eo ← outs.head?
      pure (TxStep.proceed (buyOp ctx s ei.token ei.quantity eo.quantity eo.token))
    else if t = "receive" then
      pure (TxStep.proceed
        (ins.foldl (fun st e => receiveOp ctx st e.token e.quantity) s))
    else if t = "sell" then do
      let ei ← ins.head?
      let eo ← outs.head?
      pure (TxStep.proceed (sellOp ctx s eo.token eo.quantity ei.quantity ei.token))
    else if t = "send" then
      pure (TxStep.proceed
        (outs.foldl (fun st e => sendOp ctx st e.token e.quantity) s))
    else if t = "swap" then
      (processSwap ctx ins outs s).map TxStep.proceed
    else if pyStartsWith t "reward" then
      pure (TxStep.proceed (processReward ctx ins (rewardAlloc t) s))
    else if pyStartsWith t "approve" then
      pure TxStep.skipped
    else if t = "interaction" then
      pure (TxStep.proceed s)
    else
      pure TxStep.skipped
  match step with
  | TxStep.skipped => pure s
  | TxStep.proceed s1 => handleFees ctx row.fee row.feeToken t ins outs s1

/-- The all-zero position map every run starts from. -/
def initAssets : Assets := fun _ => ⟨0, 0⟩

/-! ### Equity portfolio tracker -/

/-- Round-half-even to an integer, the rounding mode of Python round(). -/
def roundHalfEven (x : ℚ) : ℤ :=
  let f := ⌊x⌋
  let r := x - f
  if r < 1 / 2 then f
  else if 1 / 2 < r then f + 1
  else if 2 ∣ f then f else f + 1

/-- Python round(x, n): round-half-even on the decimally scaled value. -/
def pyRound (n : ℕ) (x : ℚ) : ℚ := (roundHalfEven (x * 10 ^ n) : ℚ) / 10 ^ n

/-- Environment of the equity tracker: STOCK_METADATA reduced to the
currency it yields per ISIN (absent entry or key means EUR), plus the forex
price folder of get_forex_rate. -/
structure EqEnv where
  stockMeta : String → Option String
  forexFiles : FileMap

/-- Running state of one AssetPosition. -/
structure EqPos where
  quantity : ℚ
  principal : ℚ
  fees : ℚ
  taxes : ℚ
  dividends : ℚ
deriving DecidableEq

/-- One emitted history row of the equity tracker. -/
structure EqSnap where
  date : ℕ
  isin : String
  quantity : ℚ
  principal : ℚ
  fees : ℚ
  taxes : ℚ
  dividends : ℚ
deriving DecidableEq

/-- One row of the equity transaction table. -/
structure EqRow where
  date : ℕ
  isin : String
  type : String
  quantity : ℚ
  price : ℚ
  fees : ℚ
  taxes : ℚ

/-- Tracker state: the per-ISIN position map (total, defaulting to the lazy
initial position) and the emitted history. -/
structure EqState where
  assets : String → EqPos
  history : List EqSnap

/-- AssetPosition.convert_to_eur: EUR amounts pass through, other currencies
are converted at the as-of forex rate; none models a raised forex error. -/
def convertToEur (env : EqEnv) (isin : String) (amount : ℚ) (date : ℕ) :
    Option ℚ :=
  let currency := (env.stockMeta isin).getD "EUR"
  if currency = "EUR" then some amount
  else (getForexRate env.forexFiles currency date).toOption.map
    (fun rate => amount * rate)

/-- AssetPosition.buy. -/
def eqBuy (env : EqEnv) (isin : String) (a : EqPos)
    (qty price fees taxes : ℚ) (date : ℕ) : Option EqPos :=
  (convertToEur env isin (qty * price) date).map
    (fun amt =>
      { a with
        quantity := a.quantity + qty
        principal := a.principal + amt
        fees := a.fees + fees
        taxes := a.taxes + taxes })

/-- AssetPosition.sell. -/
def eqSell (env : EqEnv) (isin : String) (a : EqPos)
    (qty price fees taxes : ℚ) (date : ℕ) : Option EqPos :=
  (convertToEur env isin (qty * price) date).map
    (fun amt =>
      { a with
        quantity := a.quantity - qty
        principal := a.principal - amt
        fees := a.fees + fees
        taxes := a.taxes + taxes })

/-- AssetPosition.split: only the live quantity is scaled. -/
def eqSplit (a : EqPos) (ratio : ℚ) : EqPos :=
  { a with quantity := a.quantity * ratio }

/-- AssetPosition.dividend. -/
def eqDividend (env : EqEnv) (isin : String) (a : EqPos)
    (amount taxes : ℚ) (date : ℕ) : Option EqPos :=
  (convertToEur env isin amount date).map
    (fun amt =>
      { a with dividends := a.dividends + amt, taxes := a.taxes + taxes })

/-- AssetPosition.to_snapshot with its roundings: quantity to 6 decimals,
all monetary aggregates to 2. -/
def eqToSnapshot (isin : String) (a : EqPos) (date : ℕ) : EqSnap :=
  { date := date
    isin := isin
    quantity := pyRound 6 a.quantity
    principal := pyRound 2 a.principal
    fees := pyRound 2 a.fees
    taxes := pyRound 2 a.taxes
    dividends := pyRound 2 a.dividends }

/-- The per-type position transition of PortfolioTracker.process_transaction
(an unmatched type leaves the position as is but still emits a snapshot). -/
def eqApplyType (env : EqEnv) (row : EqRow) (a : EqPos) : Option EqPos :=
  if row.type = "BUYING" then
    eqBuy env row.isin a row.quantity row.price row.fees row.taxes row.date
  else if row.type = "SELLING" then
    eqSell env row.isin a row.quantity row.price row.fees row.taxes row.date
  else if row.type = "STOCK_SPLIT" then some (eqSplit a row.quantity)
  else if row.type = "DIVIDEND" then
    eqDividend env row.isin a (row.quantity * row.price) row.taxes row.date
  else some a

/-- The retroactive history rewrite of the STOCK_SPLIT branch: the quantity
field of every already-emitted row of the split ISIN is scaled in place. -/
def eqRetro (row : EqRow) (hist : List EqSnap) : List EqSnap :=
  if row.type = "STOCK_SPLIT" then
    hist.map
      (fun rec =>
        if rec.isin = row.isin then
          { rec with quantity := rec.quantity * row.quantity }
        else rec)
  else hist

/-- Append-or-overwrite of the new snapshot: the immediately preceding
history row is replaced when it carries the same ISIN and date. -/
def appendOrOverwrite (hist : List EqSnap) (snap : EqSnap) : List EqSnap :=
  match hist.getLast? with
  | some last =>
    if last.isin = snap.isin ∧ last.date = snap.date then
      hist.dropLast ++ [snap]
    else hist ++ [snap]
  | none => [snap]

/-- PortfolioTracker.process_transaction. -/
def eqProcessTransaction (env : EqEnv) (row : EqRow) (s : EqState) :
    Option EqState :=
  (eqApplyType env row (s.assets row.isin)).map
    (fun a1 =>
      { assets := Function.update s.assets row.isin a1
        history :=
          appendOrOverwrite (eqRetro row s.history)
            (eqToSnapshot row.isin a1 row.date) })

/-- The empty tracker state a run starts from. -/
def initEq : EqState := ⟨fun _ => ⟨0, 0, 0, 0, 0⟩, []⟩

/-- Number of history rows carrying a given (ISIN, date). -/
def countRows (hist : List EqSnap) (isin : String) (date : ℕ) : ℕ :=
  (hist.filter (fun rec => rec.isin = isin ∧ rec.date = date)).length

/-- Sum of the principal fields of a list of coins in a crypto position
map. -/
def sumPrincipal (s : Assets) (L : List String) : ℚ :=
  (L.map (fun c => (s c).principal)).sum

/-! ### Concrete fixtures used by witnesses and counterexamples -/

/-- Context with unit prices, unit forex, no token metadata. -/
def unitCtx : CryptoCtx := ⟨fun _ => 1, fun _ => 1, fun _ => none, 3⟩

/-- Context pricing TOK at 5 and everything else at 0. -/
def rewardCtx : CryptoCtx :=
  ⟨fun c => if c = "TOK" then 5 else 0, fun _ => 1, fun _ => none, 3⟩

/-- A plain reward row receiving 1 TOK, no allocation list, no fee. -/
def rewardRow : CryptoRow :=
  ⟨"reward", some "1", some "TOK", none, none, none, none⟩

/-- A swap row whose in-lists mismatch: two quantities, one token. -/
def mismatchedRow : CryptoRow :=
  ⟨"Swap", some "1,2", some "A", some "3", some "B", none, none⟩

/-- Metadata making WETH a family member of ETH. -/
def wethMeta : String → Option TokenMeta :=
  fun c => if c = "WETH" then some ⟨none, some "ETH"⟩ else none

/-- Context over wethMeta with price 7 and forex 3 everywhere. -/
def wethCtx : CryptoCtx := ⟨fun _ => 7, fun _ => 3, wethMeta, 2⟩

/-- Forex folder holding only USD_EUR.csv with a single row on day 10. -/
def usdOnlyFiles : FileMap :=
  fun c => if c = "USD" then some [(10, 2)] else none

/-- Price environment for the carry-forward counterexample: coin ABC is
priced on days 0 and 10, its (default USD) forex rate changes on day 3. -/
def driftEnv : PriceEnv :=
  ⟨[], fun c => if c = "ABC" then some [(0, 10), (10, 20)] else none,
    fun _ => none, fun c => if c = "USD" then some [(0, 1), (3, 2)] else none⟩

/-- Price environment for the carry-forward witness: coin Z priced once on
day 0 in EUR, no forex files. -/
def flatEnv : PriceEnv :=
  ⟨[], fun c => if c = "Z" then some [(0, 5)] else none,
    fun _ => some "EUR", fun _ => none⟩

/-- Equity environment with no stock metadata and no forex files. -/
def eurOnlyEnv : EqEnv := ⟨fun _ => none, fun _ => none⟩

/-- A buy of a dust quantity whose 6-decimal snapshot rounding loses it. -/
def dustBuyRow : EqRow := ⟨1, "X", "BUYING", 11 / 25000000, 0, 0, 0⟩

/-- A 2-for-1 split of X on the same day as the dust buy. -/
def dustSplitRow : EqRow := ⟨1, "X", "STOCK_SPLIT", 2, 0, 0, 0⟩

/-- A buy of 10 X at 100 with fees 5 and taxes 2 on day 1. -/
def buyTenRow : EqRow := ⟨1, "X", "BUYING", 10, 100, 5, 2⟩

/-- Result state of the witness swap (1 A in, 2 B out at unit prices). -/
def swapWitnessState : Assets :=
  (processSwap unitCtx [⟨"A", 1⟩] [⟨"B", 2⟩] initAssets).getD initAssets

/-- Result state of the witness fee settlement (2 GAS on an interaction). -/
def feeWitnessState : Assets :=
  (handleFees unitCtx (some "2") (some "GAS") "interaction" [] []
    initAssets).getD initAssets

/-- A day-0 history row of ISIN X with quantity 10. -/
def xSnapRow : EqSnap := ⟨0, "X", 10, 0, 0, 0, 0⟩

/-- A day-0 history row of ISIN Y with quantity 5. -/
def ySnapRow : EqSnap := ⟨0, "Y", 5, 0, 0, 0, 0⟩

/-- Tracker state holding one X row and one Y row of emitted history. -/
def splitWState : EqState := ⟨fun _ => ⟨0, 0, 0, 0, 0⟩, [xSnapRow, ySnapRow]⟩

/-- A 2-for-1 split of X on day 1. -/
def splitWRow : EqRow := ⟨1, "X", "STOCK_SPLIT", 2, 0, 0, 0⟩

/-- State after the witness split. -/
def splitWOut : EqState :=
  (eqProcessTransaction eurOnlyEnv splitWRow splitWState).getD initEq

/-- State after the first witness buy. -/
def eqW1 : EqState :=
  (eqProcessTransaction eurOnlyEnv buyTenRow initEq).getD initEq

/-- State after the second witness buy on the same ISIN and date. -/
def eqW2 : EqState :=
  (eqProcessTransaction eurOnlyEnv buyTenRow eqW1).getD initEq

/-! ### Generic lemmas about the position-map primitives -/

theorem updQty_principal (s : Assets) (c : String) (dq : ℚ) (x : String) :
    ((updQty s c dq) x).principal = (s x).principal := by
  by_cases hx : x = c <;> simp [updQty, Function.update_apply, hx]

theorem updQty_other (s : Assets) (c : String) (dq : ℚ) (x : String)
    (hx : x ≠ c) : (updQty s c dq) x = s x := by
  simp [updQty, Function.update_apply, hx]

theorem sumPrincipal_congr {s₁ s₂ : Assets} {L : List String}
    (h : ∀ c ∈ L, (s₁ c).principal = (s₂ c).principal) :
    sumPrincipal s₁ L = sumPrincipal s₂ L := by
  induction L with
  | nil => rfl
  | cons x xs ih =>
    simp only [sumPrincipal, List.map_cons, List.sum_cons] at *
    rw [h x (by simp), ih (fun c hc => h c (by simp [hc]))]

theorem sumPrincipal_updQty (s : Assets) (c : String) (dq : ℚ)
    (L : List String) : sumPrincipal (updQty s c dq) L = sumPrincipal s L :=
  sumPrincipal_congr (fun x _ => updQty_principal s c dq x)

theorem sumPrincipal_update_principal (s : Assets) (t : String)
    (v : CryptoPos) (a : ℚ) (hv : v.principal = (s t).principal + a)
    {L : List String} (hmem : t ∈ L) (hnd : L.Nodup) :
    sumPrincipal (Function.update s t v) L = sumPrincipal s L + a := by
  induction L with
  | nil => cases hmem
  | cons x xs ih =>
    rcases List.nodup_cons.mp hnd with ⟨hx, hxs⟩
    simp only [sumPrincipal, List.map_cons, List.sum_cons]
    rcases List.mem_cons.mp hmem with rfl | hmem'
    · have htail :
          xs.map (fun c => ((Function.update s t v) c).principal)
            = xs.map (fun c => (s c).principal) := by
        apply List.map_congr_left
        intro c hc
        have : c ≠ t := fun hct => hx (hct ▸ hc)
        simp [Function.update_apply, this]
      simp only [Function.update_same, hv, htail]
      ring
    · have hxt : x ≠ t := fun hxt => hx (hxt ▸ hmem')
      have hhead : ((Function.update s t v) x).principal = (s x).principal := by
        simp [Function.update_apply, hxt]
      have := ih hmem' hxs
      simp only [sumPrincipal, hhead] at this ⊢
      rw [this]
      ring

theorem sumPrincipal_adjP (ctx : CryptoCtx) (s : Assets) (c : String)
    (a : ℚ) {L : List String}
    (hmem : settle (familyProxyOf ctx.meta) ctx.fuel c ∈ L)
    (hnd : L.Nodup) :
    sumPrincipal (adjP ctx s c a) L = sumPrincipal s L + a := by
  unfold adjP
  exact sumPrincipal_update_principal s _ _ a rfl hmem hnd

theorem sumPrincipal_foldl {α : Type} (step : Assets → α → Assets)
    (δ : α → ℚ) (L : List String) :
    ∀ (es : List α) (s : Assets),
      (∀ st e, e ∈ es → sumPrincipal (step st e) L = sumPrincipal st L + δ e) →
      sumPrincipal (es.foldl step s) L = sumPrincipal s L + (es.map δ).sum := by
  intro es
  induction es with
  | nil => intro s _; simp
  | cons e es ih =>
    intro s h
    simp only [List.foldl_cons, List.map_cons, List.sum_cons]
    rw [ih _ (fun st e' he' => h st e' (List.mem_cons_of_mem _ he')),
      h s e (List.mem_cons_self e es)]
    ring

theorem sum_map_mul {α : Type} (c : ℚ) (f : α → ℚ) (l : List α) :
    (l.map (fun e => c * f e)).sum = c * (l.map f).sum := by
  induction l with
  | nil => simp
  | cons x xs ih => simp [ih, mul_add]

theorem settle_none (proxyOf : String → Option String) (n : ℕ) (c : String)
    (h : proxyOf c = none) : settle proxyOf n c = c := by
  cases n <;> simp [settle, h]

theorem settle_one (proxyOf : String → Option String) (n : ℕ) (c p : String)
    (hc : proxyOf c = some p) (hp : proxyOf p = none) (hn : n ≠ 0) :
    settle proxyOf n c = p := by
  cases n with
  | zero => exact absurd rfl hn
  | succ m => simp [settle, hc, settle_none proxyOf m p hp]

theorem familyProxy_ne (meta : String → Option TokenMeta) (c p : String)
    (h : familyProxyOf meta c = some p) : p ≠ c := by
  unfold familyProxyOf at h
  split at h
  · cases h
  · next hne => cases h; exact hne

theorem adjP_redirect (ctx : CryptoCtx) (s : Assets) (c p : String) (a : ℚ)
    (hfuel : ctx.fuel ≠ 0)
    (hc : familyProxyOf ctx.meta c = some p)
    (hp : familyProxyOf ctx.meta p = none) :
    ((adjP ctx s c a) c).principal = (s c).principal ∧
      ((adjP ctx s c a) p).principal = (s p).principal + a := by
  have hsettle : settle (familyProxyOf ctx.meta) ctx.fuel c = p :=
    settle_one _ _ c p hc hp hfuel
  have hpc : p ≠ c := familyProxy_ne ctx.meta c p hc
  constructor
  · simp [adjP, hsettle, Function.update_apply, Ne.symm hpc]
  · simp [adjP, hsettle, Function.update_apply]

/-! ### Lemmas about the as-of resolver -/

theorem asofMatches_eq_nil (series : Series) (date : ℕ)
    (h : ∀ e ∈ series, date < e.1) : asofMatches series date = [] := by
  unfold asofMatches
  rw [List.filter_eq_nil_iff]
  intro e he
  simpa using (h e he).not_le

theorem asofMatches_congr (series : Series) (d1 d2 : ℕ) (h12 : d1 ≤ d2)
    (h : ∀ e ∈ series, e.1 ≤ d1 ∨ d2 < e.1) :
    asofMatches series d2 = asofMatches series d1 := by
  unfold asofMatches
  apply List.filter_congr
  intro e he
  rcases h e he with h1 | h1
  · simp [h1, le_trans h1 h12]
  · simp [Nat.not_le.mpr h1, Nat.not_le.mpr (lt_of_le_of_lt h12 h1)]

theorem forexLookup_flat (series : Series) (d1 d2 : ℕ) (h12 : d1 ≤ d2)
    (h : ∀ e ∈ series, e.1 ≤ d1 ∨ d2 < e.1) :
    forexLookup series d2 = forexLookup series d1 := by
  unfold forexLookup
  rw [asofMatches_congr series d1 d2 h12 h]

theorem getForexRate_flat (files : FileMap) (cur : String) (d1 d2 : ℕ)
    (h12 : d1 ≤ d2)
    (hfx : ∀ series, files cur = some series → ∀ e ∈ series, e.1 ≤ d1 ∨ d2 < e.1) :
    getForexRate files cur d2 = getForexRate files cur d1 := by
  unfold getForexRate
  split
  · rfl
  · cases hf : files cur with
    | none => rfl
    | some series =>
      dsimp only
      rw [forexLookup_flat series d1 d2 h12 (hfx series hf)]

theorem cryptoAsOfRaw_flat (hist : Series) (d1 d2 : ℕ) (h12 : d1 ≤ d2)
    (h : ∀ e ∈ hist, e.1 ≤ d1 ∨ d2 < e.1) :
    cryptoAsOfRaw hist d2 = cryptoAsOfRaw hist d1 := by
  unfold cryptoAsOfRaw
  rw [asofMatches_congr hist d1 d2 h12 h]


/-! ### Lemmas about list parsing and the equity history -/

theorem mapDec_length : ∀ (l : List String) (l' : List ℚ),
    mapDec l = some l' → l'.length = l.length := by
  intro l
  induction l with
  | nil =>
    intro l' h
    simp only [mapDec] at h
    obtain rfl : _ = l' := Option.some.inj h
    rfl
  | cons x xs ih =>
    intro l' h
    simp only [mapDec] at h
    cases hx : parseDecimal x with
    | none => rw [hx] at h; simp at h
    | some q =>
      rw [hx] at h
      cases hxs : mapDec xs with
      | none => rw [hxs] at h; simp at h
      | some qss =>
        rw [hxs] at h
        simp at h
        subst h
        simp [ih qss hxs]

theorem getLast?_map {α β : Type} (f : α → β) (l : List α) :
    (l.map f).getLast? = l.getLast?.map f := by
  induction l with
  | nil => rfl
  | cons x xs ih =>
    cases xs with
    | nil => rfl
    | cons y ys => simpa using ih

theorem appendOrOverwrite_append (hist : List EqSnap) (snap : EqSnap)
    (h : ∀ last, hist.getLast? = some last →
      ¬(last.isin = snap.isin ∧ last.date = snap.date)) :
    appendOrOverwrite hist snap = hist ++ [snap] := by
  unfold appendOrOverwrite
  cases hl : hist.getLast? with
  | none =>
    rw [List.getLast?_eq_none_iff] at hl
    rw [hl]
    rfl
  | some last =>
    dsimp only
    rw [if_neg (h last hl)]

theorem not_last_of_countRows_zero (hist : List EqSnap) (i : String) (d : ℕ)
    (h : countRows hist i d = 0) (last : EqSnap)
    (hl : hist.getLast? = some last) : ¬(last.isin = i ∧ last.date = d) := by
  intro hmatch
  have hmem : last ∈ hist := by
    obtain ⟨hne, heq⟩ := List.mem_getLast?_eq_getLast (Option.mem_def.mpr hl)
    rw [heq]
    exact List.getLast_mem hne
  have hin : last ∈ hist.filter (fun rec => rec.isin = i ∧ rec.date = d) :=
    List.mem_filter.mpr ⟨hmem, by simp [hmatch.1, hmatch.2]⟩
  unfold countRows at h
  rw [List.length_eq_zero] at h
  rw [h] at hin
  cases hin

theorem countRows_map_retro (isin' : String) (r : ℚ) (hist : List EqSnap)
    (i : String) (d : ℕ) :
    countRows (hist.map (fun rec =>
        if rec.isin = isin' then { rec with quantity := rec.quantity * r }
        else rec)) i d
      = countRows hist i d := by
  induction hist with
  | nil => rfl
  | cons rec rest ih =>
    have hisin : (if rec.isin = isin' then
        { rec with quantity := rec.quantity * r } else rec).isin
        = rec.isin := by
      split <;> rfl
    have hdate : (if rec.isin = isin' then
        { rec with quantity := rec.quantity * r } else rec).date
        = rec.date := by
      split <;> rfl
    unfold countRows at ih ⊢
    simp only [List.map_cons, List.filter_cons, hisin, hdate]
    split <;> simp only [List.length_cons, ih]

theorem countRows_eqRetro (row : EqRow) (hist : List EqSnap) (i : String)
    (d : ℕ) : countRows (eqRetro row hist) i d = countRows hist i d := by
  unfold eqRetro
  split
  · exact countRows_map_retro row.isin row.quantity hist i d
  · rfl

theorem countRows_append (h1 h2 : List EqSnap) (i : String) (d : ℕ) :
    countRows (h1 ++ h2) i d = countRows h1 i d + countRows h2 i d := by
  simp [countRows, List.filter_append]

theorem eqRetro_append (row : EqRow) (l1 l2 : List EqSnap) :
    eqRetro row (l1 ++ l2) = eqRetro row l1 ++ eqRetro row l2 := by
  unfold eqRetro
  split <;> simp

theorem eqRetro_singleton (row : EqRow) (a : EqSnap) :
    ∃ b, eqRetro row [a] = [b] ∧ b.isin = a.isin ∧ b.date = a.date := by
  unfold eqRetro
  split
  · refine ⟨_, rfl, ?_, ?_⟩ <;> simp only [List.map_cons, List.map_nil] <;>
      split <;> rfl
  · exact ⟨a, rfl, rfl, rfl⟩

/-! ### C8 -/

/-- C8: the forex resolver answers 1.0 for EUR independently of the price
folder contents (so without consulting any file), and for a non-EUR
currency whose file is absent it raises FileNotFoundError instead of
defaulting to 1.0. -/
theorem forex_eur_shortcircuit_and_missing_fatal (files : FileMap)
    (date : ℕ) (cur : String) (hcur : cur ≠ "EUR")
    (hmiss : files cur = none) :
    getForexRate files "EUR" date = Except.ok 1 ∧
      getForexRate files cur date = Except.error ForexError.fileNotFound := by
  constructor
  · simp [getForexRate]
  · simp [getForexRate, hcur, hmiss]

/-- Witness for C8 at a concrete folder with no files at all. -/
theorem forex_eur_shortcircuit_and_missing_fatal_witness :
    ("USD" ≠ "EUR") ∧ ((fun _ => none : FileMap) "USD" = none) ∧
      (getForexRate (fun _ => none) "EUR" 0 = Except.ok 1 ∧
        getForexRate (fun _ => none) "USD" 0 =
          Except.error ForexError.fileNotFound) :=
  ⟨by decide, rfl,
    forex_eur_shortcircuit_and_missing_fatal (fun _ => none) 0 "USD"
      (by decide) rfl⟩

/-! ### C4 -/

/-- C4 counterexample: with USD_EUR.csv holding a single row on day 10, a
lookup on day 5 (before every row) raises IndexError instead of returning
the earliest known price as the claim states. -/
theorem forex_prehistory_raises_counterexample :
    getForexRate usdOnlyFiles "USD" 5 = Except.error ForexError.indexError :=
  by rfl

/-- C4 amended: when the target date precedes every row, the raw crypto
as-of lookup falls back to the oldest row (iloc[0]) of the loaded series,
but the forex resolver raises IndexError there rather than falling back. -/
theorem asof_prehistory_fallback_amended (hist : Series) (d : ℕ)
    (hall : ∀ e ∈ hist, d < e.1)
    (files : FileMap) (cur : String) (series : Series) (d2 : ℕ)
    (hcur : cur ≠ "EUR") (hfile : files cur = some series)
    (hall2 : ∀ e ∈ series, d2 < e.1) :
    cryptoAsOfRaw hist d = hist.head?.map Prod.snd ∧
      getForexRate files cur d2 = Except.error ForexError.indexError := by
  constructor
  · unfold cryptoAsOfRaw
    rw [asofMatches_eq_nil hist d hall]
  · unfold getForexRate
    rw [if_neg hcur, hfile]
    dsimp only
    unfold forexLookup
    rw [asofMatches_eq_nil series d2 hall2]
    rfl

/-- Witness for C4 amended: coin history on day 3 queried on day 1 yields
the oldest price; the USD file starting on day 10 queried on day 5
raises. -/
theorem asof_prehistory_fallback_witness :
    (∀ e ∈ ([(3, 7)] : Series), 1 < e.1) ∧
      (cryptoAsOfRaw [(3, 7)] 1 = some 7 ∧
        getForexRate usdOnlyFiles "USD" 5 =
          Except.error ForexError.indexError) := by
  refine ⟨by decide, ?_⟩
  have h := asof_prehistory_fallback_amended [(3, 7)] 1 (by decide)
    usdOnlyFiles "USD" [(10, 2)] 5 (by decide) rfl (by decide)
  exact h

/-! ### C7 -/

/-- C7 counterexample: coin ABC is priced on days 0 and 10 only, yet its
as-of EUR price changes between day 0 and day 4 because the USD forex
conversion has a new observation on day 3; the lookup is not flat between
the coin's own observations. -/
theorem crypto_price_forex_drift_counterexample :
    (0 : ℕ) ≤ 4 ∧ (4 : ℕ) < 10 ∧
      getCryptoPrice driftEnv "ABC" 0 = Except.ok 10 ∧
      getCryptoPrice driftEnv "ABC" 4 = Except.ok 20 ∧
      (10 : ℚ) ≠ 20 := by
  refine ⟨by decide, by decide, ?_, ?_, by norm_num⟩
  · simp [getCryptoPrice, driftEnv, getPriceHistory, sortByDate,
      insertByDate, cryptoAsOfRaw, asofMatches, getForexRate, forexLookup,
      maxDateEntry, Except.map]
  · simp [getCryptoPrice, driftEnv, getPriceHistory, sortByDate,
      insertByDate, cryptoAsOfRaw, asofMatches, getForexRate, forexLookup,
      maxDateEntry, Except.map]
    norm_num

/-- C7 amended: the forex as-of rate is carried forward flat between forex
observations, and the crypto as-of EUR price is carried forward flat
provided neither the coin's own price series nor the forex series of its
metadata currency has an observation in the window. -/
theorem asof_carry_forward_amended (files : FileMap) (cur : String)
    (d1 d2 : ℕ) (h12 : d1 ≤ d2)
    (hfx : ∀ series, files cur = some series →
      ∀ e ∈ series, e.1 ≤ d1 ∨ d2 < e.1)
    (env : PriceEnv) (coin : String) (e1 e2 : ℕ) (h12' : e1 ≤ e2)
    (hhist : ∀ e ∈ getPriceHistory env coin, e.1 ≤ e1 ∨ e2 < e.1)
    (hfx2 : ∀ series,
      env.forexFiles ((env.currencyMeta coin).getD "USD") = some series →
      ∀ e ∈ series, e.1 ≤ e1 ∨ e2 < e.1) :
    getForexRate files cur d2 = getForexRate files cur d1 ∧
      getCryptoPrice env coin e2 = getCryptoPrice env coin e1 := by
  constructor
  · exact getForexRate_flat files cur d1 d2 h12 hfx
  · unfold getCryptoPrice
    rw [cryptoAsOfRaw_flat _ e1 e2 h12' hhist,
      getForexRate_flat _ _ e1 e2 h12' hfx2]

/-- Witness for C7 amended: coin Z priced once on day 0 in EUR; both
lookups agree between day 0 and day 1. -/
theorem asof_carry_forward_witness :
    (0 : ℕ) ≤ 1 ∧
      (getForexRate (fun _ => none) "USD" 1 =
          getForexRate (fun _ => none) "USD" 0 ∧
        getCryptoPrice flatEnv "Z" 1 = getCryptoPrice flatEnv "Z" 0) := by
  refine ⟨by decide, ?_⟩
  exact asof_carry_forward_amended (fun _ => none) "USD" 0 1 (by decide)
    (fun series hs => nomatch hs) flatEnv "Z" 0 1 (by decide)
    (by decide) (fun series hs => nomatch hs)

/-! ### C3 -/

/-- C3: evaluating the code at the failing input. A plain reward of 1 TOK
priced at 5 leaves TOK's principal at +5 (not net zero) and mutates a
spurious position named REWARD to -5, because
tx_type_lower.split("|")[-1].split(",") on "reward" yields the non-empty
list ["reward"], so the allocation branch fires and the net-zero else
branch (crypto_snapshots.py lines 245-246) is unreachable. -/
theorem reward_allocation_code_bug :
    rewardAlloc "reward" = ["reward"] ∧
      (processTransaction rewardCtx rewardRow initAssets).map
          (fun s => ((s "TOK").quantity, (s "TOK").principal,
            (s "REWARD").principal))
        = some (1, 5, -5) ∧
      (initAssets "REWARD").principal = 0 := by
  refine ⟨by decide, ?_, by rfl⟩
  simp [processTransaction, parseEntries, pyStrip, pyLower, pyStartsWith,
    startsWithList, splitTrim, pySplit, splitOnChar, mapDec, parseDecimal,
    digitsVal, isSpaceChar, rewardAlloc, processReward, pyUpper, handleFees,
    rewardCtx, rewardRow, initAssets, adjP, updQty, settle, familyProxyOf,
    famOf, psOf, Function.update_apply]


/-! ### C1 -/

/-- C1: a swap conserves total principal: over any duplicate-free coin list
covering the settlement targets of all in and out legs, the summed principal
is unchanged by _process_swap, i.e. the total principal added to in-assets
equals the total removed from out-assets, both in the pro-rata case
(total-out-value nonzero) and in the equal-share fallback (total-out-value
exactly zero). -/
theorem swap_principal_conservation (ctx : CryptoCtx)
    (ins outs : List TxEntry) (s s' : Assets) (L : List String)
    (hnd : L.Nodup)
    (hins : ∀ e ∈ ins, settle (familyProxyOf ctx.meta) ctx.fuel e.token ∈ L)
    (houts : ∀ e ∈ outs, settle (familyProxyOf ctx.meta) ctx.fuel e.token ∈ L)
    (h : processSwap ctx ins outs s = some s') :
    sumPrincipal s' L = sumPrincipal s L := by
  have hs1 : sumPrincipal (ins.foldl (swapInStep ctx) s) L
      = sumPrincipal s L + (ins.map (entryVal ctx)).sum := by
    apply sumPrincipal_foldl (swapInStep ctx) (entryVal ctx) L ins s
    intro st e he
    unfold swapInStep
    rw [sumPrincipal_adjP ctx _ _ _ (hins e he) hnd, sumPrincipal_updQty]
  simp only [processSwap] at h
  split at h
  · split at h
    · exact Option.noConfusion h
    · next hne =>
      have houtsne : outs ≠ [] := by
        intro hnil
        rw [hnil] at hne
        exact hne rfl
      have hlen : ((outs.length : ℚ)) ≠ 0 := by
        exact_mod_cast Nat.pos_iff_ne_zero.mp (List.length_pos.mpr houtsne)
      obtain rfl : _ = s' := Option.some.inj h
      have hout : sumPrincipal
          (outs.foldl (fun st e => swapOutStep ctx
            ((ins.map (entryVal ctx)).sum) 1 (1 / (outs.length : ℚ)) st e)
            (ins.foldl (swapInStep ctx) s)) L
          = sumPrincipal (ins.foldl (swapInStep ctx) s) L
            + (outs.map (fun _ => -(((ins.map (entryVal ctx)).sum)
                * ((1 / (outs.length : ℚ)) / 1)))).sum := by
        apply sumPrincipal_foldl
        intro st e he
        unfold swapOutStep
        rw [sumPrincipal_adjP ctx _ _ _ (houts e he) hnd, sumPrincipal_updQty]
      rw [hout, hs1]
      have hconst : (outs.map (fun _ => -(((ins.map (entryVal ctx)).sum)
          * ((1 / (outs.length : ℚ)) / 1)))).sum
          = (outs.length : ℚ) * -(((ins.map (entryVal ctx)).sum)
              * ((1 / (outs.length : ℚ)) / 1)) := by
        rw [List.map_const']
        rw [List.sum_replicate]
        rw [nsmul_eq_mul]
      rw [hconst]
      field_simp
      ring
  · next h0 =>
    obtain rfl : _ = s' := Option.some.inj h
    have hout : sumPrincipal
        (outs.foldl (fun st e => swapOutStep ctx
          ((ins.map (entryVal ctx)).sum) ((outs.map (entryVal ctx)).sum)
          (entryVal ctx e) st e)
          (ins.foldl (swapInStep ctx) s)) L
        = sumPrincipal (ins.foldl (swapInStep ctx) s) L
          + (outs.map (fun e => -(((ins.map (entryVal ctx)).sum)
              * (entryVal ctx e / ((outs.map (entryVal ctx)).sum))))).sum := by
      apply sumPrincipal_foldl
      intro st e he
      unfold swapOutStep
      rw [sumPrincipal_adjP ctx _ _ _ (houts e he) hnd, sumPrincipal_updQty]
    rw [hout, hs1]
    have heq : (fun e => -(((ins.map (entryVal ctx)).sum)
        * (entryVal ctx e / ((outs.map (entryVal ctx)).sum))))
        = fun e => (-(((ins.map (entryVal ctx)).sum)
            / ((outs.map (entryVal ctx)).sum))) * entryVal ctx e := by
      funext e
      ring
    rw [heq, sum_map_mul]
    field_simp
    ring

/-- Witness for C1: swapping 1 A into 2 B at unit prices conserves the
summed principal over the coins A and B. -/
theorem swap_principal_conservation_witness :
    (["A", "B"] : List String).Nodup ∧
      sumPrincipal swapWitnessState ["A", "B"]
        = sumPrincipal initAssets ["A", "B"] := by
  refine ⟨by decide, ?_⟩
  apply swap_principal_conservation unitCtx [⟨"A", 1⟩] [⟨"B", 2⟩] initAssets
    swapWitnessState ["A", "B"] (by decide) (by decide) (by decide)
  simp [processSwap, swapWitnessState, entryVal, unitCtx, psOf]

/-! ### C10 -/

/-- C10: gas fee settlement conserves the summed principal over any
duplicate-free coin list covering the fee asset's and the targets'
settlement coins (the deduction from the fee asset equals the sum of the
equal shares added to targets), and with no target entries no principal
changes at all: only the fee asset's quantity drops by the fee. -/
theorem fee_settlement_principal_conservation (ctx : CryptoCtx)
    (fs ft : String) (q : ℚ) (txType : String) (ins outs : List TxEntry)
    (s s' : Assets) (L : List String)
    (hq : parseDecimal fs = some q) (hq0 : 0 < q)
    (h : handleFees ctx (some fs) (some ft) txType ins outs s = some s')
    (hnd : L.Nodup)
    (hft : settle (familyProxyOf ctx.meta) ctx.fuel ft ∈ L)
    (htg : ∀ e ∈ targetEntries txType ins outs,
      settle (familyProxyOf ctx.meta) ctx.fuel e.token ∈ L) :
    sumPrincipal s' L = sumPrincipal s L ∧
      (targetEntries txType ins outs = [] →
        (∀ c, (s' c).principal = (s c).principal) ∧
        (∀ c, c ≠ ft → s' c = s c) ∧
        (s' ft).quantity = (s ft).quantity - q) := by
  simp only [handleFees, hq] at h
  rw [if_pos hq0] at h
  split at h
  · obtain rfl : _ = s' := Option.some.inj h
    refine ⟨sumPrincipal_updQty s ft (-q) L, fun _ => ⟨?_, ?_, ?_⟩⟩
    · exact fun c => updQty_principal s ft (-q) c
    · exact fun c hc => updQty_other s ft (-q) c hc
    · simp [updQty, sub_eq_add_neg]
  · next hemp =>
    obtain rfl : _ = s' := Option.some.inj h
    constructor
    · have hne : targetEntries txType ins outs ≠ [] := by
        intro hnil
        rw [hnil] at hemp
        exact hemp rfl
      have hlen : ((targetEntries txType ins outs).length : ℚ) ≠ 0 := by
        exact_mod_cast Nat.pos_iff_ne_zero.mp (List.length_pos.mpr hne)
      have hfold : sumPrincipal
          ((targetEntries txType ins outs).foldl
            (fun st e => adjP ctx st e.token
              ((q * ctx.price (psOf ctx.meta ft))
                / ((targetEntries txType ins outs).length : ℚ)))
            (adjP ctx (updQty s ft (-q)) ft
              (-(q * ctx.price (psOf ctx.meta ft))))) L
          = sumPrincipal (adjP ctx (updQty s ft (-q)) ft
              (-(q * ctx.price (psOf ctx.meta ft)))) L
            + ((targetEntries txType ins outs).map
                (fun _ => (q * ctx.price (psOf ctx.meta ft))
                  / ((targetEntries txType ins outs).length : ℚ))).sum := by
        apply sumPrincipal_foldl
        intro st e he
        rw [sumPrincipal_adjP ctx _ _ _ (htg e he) hnd]
      rw [hfold, sumPrincipal_adjP ctx _ _ _ hft hnd, sumPrincipal_updQty,
        List.map_const', List.sum_replicate, nsmul_eq_mul]
      field_simp
    · intro htgt
      rw [htgt] at hemp
      exact absurd rfl hemp

/-- Witness for C10: a 2 GAS fee on an interaction row (no targets) leaves
every principal unchanged and only reduces the GAS quantity. -/
theorem fee_settlement_principal_conservation_witness :
    parseDecimal "2" = some 2 ∧ (0 : ℚ) < 2 ∧
      (sumPrincipal feeWitnessState ["GAS"]
          = sumPrincipal initAssets ["GAS"] ∧
        (targetEntries "interaction" [] [] = [] →
          (∀ c, (feeWitnessState c).principal
            = (initAssets c).principal) ∧
          (∀ c, c ≠ "GAS" → feeWitnessState c = initAssets c) ∧
          (feeWitnessState "GAS").quantity
            = (initAssets "GAS").quantity - 2)) := by
  have hq : parseDecimal "2" = some 2 := by
    simp [parseDecimal, splitOnChar, digitsVal]
  refine ⟨hq, by norm_num, ?_⟩
  apply fee_settlement_principal_conservation unitCtx "2" "GAS" 2
    "interaction" [] [] initAssets feeWitnessState ["GAS"] hq (by norm_num)
    ?_ (by decide) (by decide) (by decide)
  simp [handleFees, hq, feeWitnessState, parseDecimal, splitOnChar,
    digitsVal, targetEntries, updQty, unitCtx, initAssets]

/-! ### C2 -/

/-- C2: for a coin whose metadata names a different family coin (its proxy)
that itself has no proxy, each of buy, sell, receive and send leaves the
coin's own principal at its initial 0 and applies the operation's full
principal delta to the proxy position instead. -/
theorem family_proxy_principal_redirection (ctx : CryptoCtx) (s : Assets)
    (c p : String) (hfuel : ctx.fuel ≠ 0)
    (hc : familyProxyOf ctx.meta c = some p)
    (hp : familyProxyOf ctx.meta p = none)
    (h0 : (s c).principal = 0)
    (qb fb qs fr qr qd : ℚ) (curB curS : String) :
    ((buyOp ctx s c qb fb curB) c).principal = 0 ∧
      ((buyOp ctx s c qb fb curB) p).principal
        = (s p).principal + fb * ctx.forex curB ∧
      ((sellOp ctx s c qs fr curS) c).principal = 0 ∧
      ((sellOp ctx s c qs fr curS) p).principal
        = (s p).principal - fr * ctx.forex curS ∧
      ((receiveOp ctx s c qr) c).principal = 0 ∧
      ((receiveOp ctx s c qr) p).principal
        = (s p).principal + qr * ctx.price (psOf ctx.meta c) ∧
      ((sendOp ctx s c qd) c).principal = 0 ∧
      ((sendOp ctx s c qd) p).principal
        = (s p).principal - qd * ctx.price (psOf ctx.meta c) := by
  have key : ∀ dq a : ℚ,
      ((adjP ctx (updQty s c dq) c a) c).principal = 0 ∧
        ((adjP ctx (updQty s c dq) c a) p).principal
          = (s p).principal + a := by
    intro dq a
    have h := adjP_redirect ctx (updQty s c dq) c p a hfuel hc hp
    constructor
    · rw [h.1, updQty_principal, h0]
    · rw [h.2, updQty_principal]
  refine ⟨(key qb _).1, (key qb _).2, ?_, ?_, (key qr _).1, (key qr _).2,
    ?_, ?_⟩
  · exact (key (-qs) _).1
  · rw [sellOp, (key (-qs) _).2, sub_eq_add_neg]
  · exact (key (-qd) _).1
  · rw [sendOp, (key (-qd) _).2, sub_eq_add_neg]

/-- Witness for C2 with WETH proxied to ETH, price 7, forex 3. -/
theorem family_proxy_principal_redirection_witness :
    familyProxyOf wethCtx.meta "WETH" = some "ETH" ∧
      familyProxyOf wethCtx.meta "ETH" = none ∧
      (initAssets "WETH").principal = 0 ∧
      (((buyOp wethCtx initAssets "WETH" 1 100 "USD") "WETH").principal
          = 0 ∧
        ((buyOp wethCtx initAssets "WETH" 1 100 "USD") "ETH").principal
          = (initAssets "ETH").principal + 100 * wethCtx.forex "USD" ∧
        ((sellOp wethCtx initAssets "WETH" 2 50 "USD") "WETH").principal
          = 0 ∧
        ((sellOp wethCtx initAssets "WETH" 2 50 "USD") "ETH").principal
          = (initAssets "ETH").principal - 50 * wethCtx.forex "USD" ∧
        ((receiveOp wethCtx initAssets "WETH" 4) "WETH").principal = 0 ∧
        ((receiveOp wethCtx initAssets "WETH" 4) "ETH").principal
          = (initAssets "ETH").principal
            + 4 * wethCtx.price (psOf wethCtx.meta "WETH") ∧
        ((sendOp wethCtx initAssets "WETH" 5) "WETH").principal = 0 ∧
        ((sendOp wethCtx initAssets "WETH" 5) "ETH").principal
          = (initAssets "ETH").principal
            - 5 * wethCtx.price (psOf wethCtx.meta "WETH")) :=
  ⟨by decide, by decide, rfl,
    family_proxy_principal_redirection wethCtx initAssets "WETH" "ETH"
      (by decide) (by decide) (by decide) rfl 1 100 2 50 4 5 "USD" "USD"⟩

/-! ### C9 -/

/-- C9 counterexample: the swap row with quantity list "1,2" against token
list "A" is not skipped: zip truncates the in-legs to [(A, 1)] and the row
is applied, mutating positions A and B (A gains quantity 1, the claim
requires no mutation at all). -/
theorem mismatched_swap_lists_counterexample :
    (processTransaction unitCtx mismatchedRow initAssets).map
        (fun st => ((st "A").quantity, (st "A").principal,
          (st "B").quantity, (st "B").principal))
      = some (1, 1, -3, -1) ∧
      (initAssets "A").quantity = 0 := by
  constructor
  · simp [processTransaction, parseEntries, pyStrip, pyLower, pyStartsWith,
      startsWithList, splitTrim, pySplit, splitOnChar, mapDec, parseDecimal,
      digitsVal, isSpaceChar, mismatchedRow, unitCtx, initAssets, handleFees,
      processSwap, swapInStep, swapOutStep, entryVal, adjP, updQty, settle,
      familyProxyOf, famOf, psOf, Function.update_apply]
  · rfl

/-- C9 amended: a row whose comma-separated quantity and token lists have
mismatched lengths is not skipped and not logged: the lists are zipped,
silently truncating to the shorter length, and the row is applied with the
truncated entries; only rows with an unrecognized transaction type are
skipped with a log notice and no state mutation. -/
theorem malformed_row_truncation_amended (qs ts : String)
    (entries : List TxEntry) (hq : pyStrip qs ≠ "")
    (hp : parseEntries (some qs) (some ts) = some entries)
    (ctx : CryptoCtx) (row : CryptoRow) (s : Assets)
    (ins outs : List TxEntry)
    (hin : parseEntries row.qtyIn row.tokenIn = some ins)
    (hout : parseEntries row.qtyOut row.tokenOut = some outs)
    (ht1 : pyLower row.type ≠ "buy") (ht2 : pyLower row.type ≠ "receive")
    (ht3 : pyLower row.type ≠ "sell") (ht4 : pyLower row.type ≠ "send")
    (ht5 : pyLower row.type ≠ "swap")
    (ht6 : pyStartsWith (pyLower row.type) "reward" = false)
    (ht7 : pyStartsWith (pyLower row.type) "approve" = false)
    (ht8 : pyLower row.type ≠ "interaction") :
    entries.length = min (splitTrim ts).length (splitTrim qs).length ∧
      processTransaction ctx row s = some s := by
  constructor
  · simp only [parseEntries, if_neg hq] at hp
    rw [Option.map_eq_some'] at hp
    obtain ⟨quantities, hmd, hent⟩ := hp
    rw [← hent]
    simp [List.length_zip, mapDec_length _ _ hmd]
  · simp [processTransaction, hin, hout, ht1, ht2, ht3, ht4, ht5, ht6, ht7,
      ht8]

/-- Witness for C9 amended: "1,2" against "A" parses to one truncated entry,
and a row of the unknown type "stake" leaves the state untouched. -/
theorem malformed_row_truncation_witness :
    pyStrip "1,2" ≠ "" ∧
      parseEntries (some "1,2") (some "A") = some [⟨"A", 1⟩] ∧
      (([⟨"A", 1⟩] : List TxEntry).length
          = min (splitTrim "A").length (splitTrim "1,2").length ∧
        processTransaction unitCtx
          ⟨"stake", none, none, none, none, none, none⟩ initAssets
          = some initAssets) := by
  have hp : parseEntries (some "1,2") (some "A") = some [⟨"A", 1⟩] := by
    simp [parseEntries, pyStrip, splitTrim, pySplit, splitOnChar, mapDec,
      parseDecimal, digitsVal, isSpaceChar]
  refine ⟨by decide, hp, ?_⟩
  exact malformed_row_truncation_amended "1,2" "A" [⟨"A", 1⟩] (by decide) hp
    unitCtx ⟨"stake", none, none, none, none, none, none⟩ initAssets [] []
    rfl rfl (by decide) (by decide) (by decide) (by decide) (by decide)
    (by decide) (by decide) (by decide)

/-! ### C5 -/

/-- C5 counterexample: buying a dust quantity of X (snapshot rounds it to 0
at 6 decimals) and splitting 2-for-1 on the same day leaves the single
history row at quantity 1/1000000, not at the claimed 0 * 2 = 0, because
the same-(ISIN, date) overwrite replaces the retroactively scaled row with
a freshly rounded snapshot of the live position. -/
theorem stock_split_same_day_overwrite_counterexample :
    ((eqProcessTransaction eurOnlyEnv dustBuyRow initEq).map
        (fun st => st.history.map (fun rec => rec.quantity))) = some [0] ∧
      (((eqProcessTransaction eurOnlyEnv dustBuyRow initEq).bind
          (eqProcessTransaction eurOnlyEnv dustSplitRow)).map
        (fun st => st.history.map (fun rec => rec.quantity)))
        = some [1 / 1000000] ∧
      (1 / 1000000 : ℚ) ≠ 0 * 2 := by
  refine ⟨?_, ?_, by norm_num⟩
  · simp [eqProcessTransaction, eqApplyType, eqBuy, convertToEur,
      eurOnlyEnv, dustBuyRow, initEq, eqToSnapshot, appendOrOverwrite,
      eqRetro, pyRound, roundHalfEven]
    norm_num [Int.fract]
  · simp [eqProcessTransaction, eqApplyType, eqBuy, eqSplit, convertToEur,
      eurOnlyEnv, dustBuyRow, dustSplitRow, initEq, eqToSnapshot,
      appendOrOverwrite, eqRetro, pyRound, roundHalfEven,
      Function.update_apply]
    norm_num [Int.fract]

/-- C5 amended: a STOCK_SPLIT with ratio r multiplies the live position's
quantity by r leaving principal, fees, taxes and dividends unchanged, and
multiplies the quantity of every previously emitted history row of that
ISIN by r (other ISINs' rows unchanged), provided the immediately preceding
history row does not carry the split row's (ISIN, date); in that excluded
case the preceding row is instead overwritten by the freshly rounded
post-split snapshot. A new snapshot row is appended either way. -/
theorem stock_split_retroactive_amended (env : EqEnv) (s : EqState)
    (isin : String) (r pr f t : ℚ) (d : ℕ) (s' : EqState)
    (hlast : ∀ last, s.history.getLast? = some last →
      ¬(last.isin = isin ∧ last.date = d))
    (h : eqProcessTransaction env ⟨d, isin, "STOCK_SPLIT", r, pr, f, t⟩ s
      = some s') :
    s'.assets isin = eqSplit (s.assets isin) r ∧
      (s'.assets isin).quantity = (s.assets isin).quantity * r ∧
      (s'.assets isin).principal = (s.assets isin).principal ∧
      (s'.assets isin).fees = (s.assets isin).fees ∧
      (s'.assets isin).taxes = (s.assets isin).taxes ∧
      (s'.assets isin).dividends = (s.assets isin).dividends ∧
      (∀ j, j ≠ isin → s'.assets j = s.assets j) ∧
      s'.history = (s.history.map (fun rec =>
          if rec.isin = isin then { rec with quantity := rec.quantity * r }
          else rec))
        ++ [eqToSnapshot isin (eqSplit (s.assets isin) r) d] := by
  have happ : eqApplyType env ⟨d, isin, "STOCK_SPLIT", r, pr, f, t⟩
      (s.assets isin) = some (eqSplit (s.assets isin) r) := by
    simp [eqApplyType]
  have hretro : eqRetro (⟨d, isin, "STOCK_SPLIT", r, pr, f, t⟩ : EqRow)
      s.history
      = s.history.map (fun rec =>
          if rec.isin = isin then { rec with quantity := rec.quantity * r }
          else rec) := by
    simp [eqRetro]
  have hao : appendOrOverwrite
      (s.history.map (fun rec =>
        if rec.isin = isin then { rec with quantity := rec.quantity * r }
        else rec))
      (eqToSnapshot isin (eqSplit (s.assets isin) r) d)
      = (s.history.map (fun rec =>
          if rec.isin = isin then { rec with quantity := rec.quantity * r }
          else rec))
        ++ [eqToSnapshot isin (eqSplit (s.assets isin) r) d] := by
    apply appendOrOverwrite_append
    intro last hl
    rw [getLast?_map] at hl
    cases hsl : s.history.getLast? with
    | none => rw [hsl] at hl; cases hl
    | some last0 =>
      rw [hsl] at hl
      obtain rfl : _ = last := Option.some.inj hl
      have hn := hlast last0 hsl
      intro hmatch
      apply hn
      constructor
      · have hpres : (if last0.isin = isin then
            { last0 with quantity := last0.quantity * r } else last0).isin
            = last0.isin := by split <;> rfl
        rw [← hpres]
        exact hmatch.1
      · have hpres : (if last0.isin = isin then
            { last0 with quantity := last0.quantity * r } else last0).date
            = last0.date := by split <;> rfl
        rw [← hpres]
        exact hmatch.2
  unfold eqProcessTransaction at h
  rw [happ] at h
  simp only [Option.map_some] at h
  obtain rfl : _ = s' := Option.some.inj h
  simp only [hretro, hao]
  refine ⟨by simp [Function.update_same],
    by simp [Function.update_same, eqSplit],
    by simp [Function.update_same, eqSplit],
    by simp [Function.update_same, eqSplit],
    by simp [Function.update_same, eqSplit],
    by simp [Function.update_same, eqSplit],
    fun j hj => by simp [Function.update_apply, hj], trivial⟩

/-- Witness for C5 amended: history rows for X and Y, then a 2-for-1 split
of X on a later day. -/
theorem stock_split_retroactive_witness :
    splitWOut.assets "X" = eqSplit (splitWState.assets "X") 2 ∧
      (splitWOut.assets "X").quantity
        = (splitWState.assets "X").quantity * 2 ∧
      (splitWOut.assets "X").principal
        = (splitWState.assets "X").principal ∧
      (splitWOut.assets "X").fees = (splitWState.assets "X").fees ∧
      (splitWOut.assets "X").taxes = (splitWState.assets "X").taxes ∧
      (splitWOut.assets "X").dividends
        = (splitWState.assets "X").dividends ∧
      (∀ j, j ≠ "X" → splitWOut.assets j = splitWState.assets j) ∧
      splitWOut.history = (splitWState.history.map (fun rec =>
          if rec.isin = "X" then { rec with quantity := rec.quantity * 2 }
          else rec))
        ++ [eqToSnapshot "X" (eqSplit (splitWState.assets "X") 2) 1] := by
  apply stock_split_retroactive_amended eurOnlyEnv splitWState "X" 2 0 0 0 1
    splitWOut
  · intro last hl
    have hlast : ySnapRow = last := by
      simpa [splitWState, xSnapRow, ySnapRow] using hl
    rw [← hlast]
    decide
  · simp [splitWOut, splitWRow, eqProcessTransaction, eqApplyType, eqSplit,
      splitWState, eqRetro, appendOrOverwrite, xSnapRow, ySnapRow]

/-! ### C6 -/

/-- C6: two consecutive transactions on the same ISIN and date, starting
from a history with no row for that (ISIN, date), leave exactly one history
row for that (ISIN, date), and it is the snapshot of the live position
after both transactions (the second overwrites the first). -/
theorem same_day_snapshot_overwrite (env : EqEnv) (r1 r2 : EqRow)
    (s s1 s2 : EqState) (i : String) (d : ℕ)
    (hi1 : r1.isin = i) (hd1 : r1.date = d)
    (hi2 : r2.isin = i) (hd2 : r2.date = d)
    (h0 : countRows s.history i d = 0)
    (h1 : eqProcessTransaction env r1 s = some s1)
    (h2 : eqProcessTransaction env r2 s1 = some s2) :
    countRows s2.history i d = 1 ∧
      s2.history.getLast? = some (eqToSnapshot i (s2.assets i) d) := by
  unfold eqProcessTransaction at h1 h2
  rw [Option.map_eq_some'] at h1 h2
  obtain ⟨a1, ha1, hs1⟩ := h1
  obtain ⟨a2, ha2, hs2⟩ := h2
  have hsnap1i : (eqToSnapshot r1.isin a1 r1.date).isin = i := hi1
  have hsnap1d : (eqToSnapshot r1.isin a1 r1.date).date = d := hd1
  have hH1 : countRows (eqRetro r1 s.history) i d = 0 := by
    rw [countRows_eqRetro]; exact h0
  have hhist1 : s1.history
      = eqRetro r1 s.history ++ [eqToSnapshot r1.isin a1 r1.date] := by
    rw [← hs1]
    exact appendOrOverwrite_append _ _ (fun last hl hm =>
      not_last_of_countRows_zero _ i d hH1 last hl
        ⟨hsnap1i ▸ hm.1, hsnap1d ▸ hm.2⟩)
  obtain ⟨b, hb, hbi, hbd⟩ :=
    eqRetro_singleton r2 (eqToSnapshot r1.isin a1 r1.date)
  have hH2 : eqRetro r2 s1.history
      = eqRetro r2 (eqRetro r1 s.history) ++ [b] := by
    rw [hhist1, eqRetro_append, hb]
  have hH2last : (eqRetro r2 s1.history).getLast? = some b := by
    rw [hH2]
    exact List.getLast?_concat _
  have hbi' : b.isin = i := by rw [hbi]; exact hi1
  have hbd' : b.date = d := by rw [hbd]; exact hd1
  have hao2 : appendOrOverwrite (eqRetro r2 s1.history)
      (eqToSnapshot r2.isin a2 r2.date)
      = eqRetro r2 (eqRetro r1 s.history)
        ++ [eqToSnapshot r2.isin a2 r2.date] := by
    unfold appendOrOverwrite
    rw [hH2last]
    dsimp only
    rw [if_pos ⟨by rw [hbi']; exact hi2.symm, by rw [hbd']; exact hd2.symm⟩]
    rw [hH2, List.dropLast_concat]
  have hhist2 : s2.history
      = eqRetro r2 (eqRetro r1 s.history)
        ++ [eqToSnapshot r2.isin a2 r2.date] := by
    rw [← hs2, hao2]
  constructor
  · rw [hhist2, countRows_append, countRows_eqRetro, countRows_eqRetro, h0]
    simp [countRows, eqToSnapshot, hi2, hd2]
  · rw [hhist2, List.getLast?_concat]
    have hassets : s2.assets i = a2 := by
      rw [← hs2]
      dsimp only
      rw [← hi2, Function.update_same]
    rw [hassets, hi2, hd2]

/-- Witness for C6: two buys of 10 X at 100 on day 1 from the empty state
produce exactly one (X, day-1) history row holding the combined state. -/
theorem same_day_snapshot_overwrite_witness :
    countRows initEq.history "X" 1 = 0 ∧
      (countRows eqW2.history "X" 1 = 1 ∧
        eqW2.history.getLast?
          = some (eqToSnapshot "X" (eqW2.assets "X") 1)) := by
  have h1 : eqProcessTransaction eurOnlyEnv buyTenRow initEq
      = some eqW1 := by
    simp [eqW1, eqProcessTransaction, eqApplyType, eqBuy, convertToEur,
      eurOnlyEnv, buyTenRow, initEq, eqRetro, appendOrOverwrite]
  have h2 : eqProcessTransaction eurOnlyEnv buyTenRow eqW1
      = some eqW2 := by
    simp [eqW2, eqW1, eqProcessTransaction, eqApplyType, eqBuy, convertToEur,
      eurOnlyEnv, buyTenRow, initEq, eqRetro, appendOrOverwrite]
  exact ⟨rfl, same_day_snapshot_overwrite eurOnlyEnv buyTenRow buyTenRow
    initEq eqW1 eqW2 "X" 1 rfl rfl rfl rfl rfl h1 h2⟩


end Stockdata
